import Mathlib

/-!
Verification of the property-to-widget resolution and value (de)serialization
engine of the shacl-form repository (src/inputs.ts, src/config.ts).

The TypeScript classes are shallowly embedded as Lean structures holding the
observable widget state the source reads and writes (the `value` string of the
underlying control, checkbox checkedness, select options, the constraint
attributes the constructors set).  DOM-level concerns the source never
inspects (styling, ids, labels, event wiring) are not part of the state.
JavaScript truthiness tests of the source (`if (property.shaclIn)`,
`property.languageIn?.length`, `property.minInclusive ? ... : ...`) are
embedded as explicit `jsTruthy*` helpers so that the embedding matches the
behaviour of the code and not only its apparent intent.
-/

namespace ShaclForm

/-- Namespace constants (constants.ts): the XSD namespace used by
`inputFactory` and the editors. -/
def PREFIX_XSD : String := "http://www.w3.org/2001/XMLSchema#"

/-- Namespace constants (constants.ts): the RDF namespace (rdf:langString). -/
def PREFIX_RDF : String := "http://www.w3.org/1999/02/22-rdf-syntax-ns#"

/-- Namespace constants (constants.ts): the SHACL namespace (sh:IRI). -/
def PREFIX_SHACL : String := "http://www.w3.org/ns/shacl#"

/-- Full IRI of rdf:langString, the datatype n3 assigns to language-tagged
literals. -/
def rdfLangString : String := PREFIX_RDF ++ "langString"

/-- Full IRI of xsd:string, the default datatype n3 assigns to plain
literals. -/
def xsdString : String := PREFIX_XSD ++ "string"

/-- Full IRI of xsd:integer. -/
def xsdInteger : String := PREFIX_XSD ++ "integer"

/-- Full IRI of xsd:double. -/
def xsdDouble : String := PREFIX_XSD ++ "double"

/-- Full IRI of sh:IRI, compared against `property.nodeKind?.id`. -/
def shIRI : String := PREFIX_SHACL ++ "IRI"

/-- Shallow embedding of the RDF/JS terms flowing in and out of the editors:
a named node carries its IRI, a literal carries its lexical value, its
language tag (`""` when absent, as in n3) and its resolved datatype IRI.
Blank nodes are out of scope for input widgets (spec data model). -/
inductive RDFTerm where
  | namedNode (value : String)
  | literal (value : String) (language : String) (datatypeValue : String)
deriving DecidableEq

/-- The `.value` accessor of RDF/JS terms: the IRI of a named node, the
lexical form of a literal. -/
def RDFTerm.value : RDFTerm → String
  | .namedNode v => v
  | .literal v _ _ => v

/-- `DataFactory.literal(value, datatypeNamedNode | undefined)`: a typed
literal; n3 defaults the datatype to xsd:string when none is given. -/
def literalOfDT (v : String) (dt : Option String) : RDFTerm :=
  .literal v "" (dt.getD xsdString)

/-- `DataFactory.literal(value, languageOrDataType)` as called by
`InputLangString.toRDFObject`: a non-empty language string produces a
language-tagged literal (datatype rdf:langString per RDF/JS), otherwise the
property datatype (or xsd:string) is used. -/
def literalOfLangOrDT (v : String) (lang : String) (dt : Option String) : RDFTerm :=
  if lang = "" then literalOfDT v dt else .literal v lang rdfLangString

/-- The slice of `Config` (config.ts) that inputs.ts reads: the
materialized RDF lists extracted from the shapes graph (a `Record` keyed by
list id, embedded as an association list) and the display language. -/
structure FormConfig where
  lists : List (String × List RDFTerm)
  language : Option String
deriving DecidableEq

/-- The fields of `ShaclPropertySpec` (property-spec.ts, types inferred from
their uses in inputs.ts and the spec data model): options model optional
(possibly `undefined`) fields.  `datatype` and `nodeKind` carry the IRI
string of the corresponding named node; `classIri` is the source field
`class` (a Lean keyword); `languageIn` carries the lexical values of the
language terms; numeric facets are embedded as integers (the claims concern
integer-valued datatypes).  `config` is the back reference used by
`inputFactory`. -/
structure ShaclPropertySpec where
  path : String
  datatype : Option String
  classIri : Option String
  nodeKind : Option String
  minCount : Option Int
  minLength : Option Int
  maxLength : Option Int
  pattern : Option String
  minInclusive : Option Int
  maxInclusive : Option Int
  minExclusive : Option Int
  maxExclusive : Option Int
  singleLine : Option Bool
  languageIn : Option (List String)
  shaclIn : Option String
  defaultValue : Option RDFTerm
  config : FormConfig
deriving DecidableEq

/-- JavaScript truthiness of an optional string: `undefined` and `""` are
falsy. -/
def jsTruthyStr : Option String → Bool
  | some s => !(s == "")
  | none => false

/-- JavaScript truthiness of an optional number: `undefined` and `0` are
falsy. -/
def jsTruthyNum : Option Int → Bool
  | some n => !(n == 0)
  | none => false

/-- JavaScript truthiness of `xs?.length` for an optional array: truthy
exactly when the array exists and is non-empty. -/
def jsTruthyLen {α : Type} : Option (List α) → Bool
  | some l => !l.isEmpty
  | none => false

/-- The six editor classes `inputFactory` can instantiate. -/
inductive EditorKind where
  | text
  | langString
  | number
  | date
  | boolean
  | list
deriving DecidableEq

/-- First-occurrence replacement by the empty string on character lists:
the behaviour of JavaScript `String.prototype.replace` with a string
pattern, as used in `property.datatype?.value.replace(PREFIX_XSD, '')`. -/
def replaceFirst (pat : List Char) : List Char → List Char
  | [] => []
  | c :: cs =>
    if pat.isPrefixOf (c :: cs) then (c :: cs).drop pat.length
    else c :: replaceFirst pat cs

/-- `datatypeValue.replace(PREFIX_XSD, '')` from `inputFactory`. -/
def stripXsd (s : String) : String :=
  ⟨replaceFirst PREFIX_XSD.data s.data⟩

/-- Truthiness guard `if (property.shaclIn)` of `inputFactory`. -/
def shaclInTruthy (p : ShaclPropertySpec) : Bool :=
  jsTruthyStr p.shaclIn

/-- The lookup `property.config.lists[property.shaclIn]` of `inputFactory`
(`none` both when `shaclIn` is absent and when the record has no entry). -/
def materializedList (p : ShaclPropertySpec) : Option (List RDFTerm) :=
  p.shaclIn.bind (fun k => List.lookup k p.config.lists)

/-- The guard of the langstring branch of `inputFactory`:
`property.datatype?.value === PREFIX_RDF + 'langString' ||
property.languageIn?.length`. -/
def langStringCase (p : ShaclPropertySpec) : Bool :=
  (p.datatype == some rdfLangString) || jsTruthyLen p.languageIn

/-- The trailing `switch` of `inputFactory` on the XSD-stripped datatype,
together with the final fallback to a text editor (`switch` on `undefined`
matches no case and also falls through to the fallback). -/
def resolveSwitch (p : ShaclPropertySpec) : EditorKind :=
  match p.datatype with
  | none => .text
  | some dv =>
    match stripXsd dv with
    | "string" => .text
    | "integer" => .number
    | "float" => .number
    | "double" => .number
    | "decimal" => .number
    | "date" => .date
    | "dateTime" => .date
    | "boolean" => .boolean
    | _ => .text

/-- The part of `inputFactory` reached when the list branch does not return:
the langstring check followed by the datatype switch and the text
fallback. -/
def resolveAfterList (p : ShaclPropertySpec) : EditorKind :=
  if langStringCase p then .langString else resolveSwitch p

/-- `inputFactory` (inputs.ts): returns the selected editor kind together
with whether the `console.error('list not found: ...')` diagnostic was
emitted.  The list branch returns a list editor when the materialized list
exists and is non-empty (`list?.length` truthy); otherwise it logs the
diagnostic and execution continues with the remaining checks. -/
def inputFactoryKind (p : ShaclPropertySpec) : EditorKind × Bool :=
  if shaclInTruthy p then
    match materializedList p with
    | some l => if !l.isEmpty then (.list, false) else (resolveAfterList p, true)
    | none => (resolveAfterList p, true)
  else (resolveAfterList p, false)

/-- The editor kind `inputFactory` selects. -/
def resolveKind (p : ShaclPropertySpec) : EditorKind :=
  (inputFactoryKind p).1

/-- Whether `inputFactory` emitted the missing-list diagnostic. -/
def resolveDiagnostic (p : ShaclPropertySpec) : Bool :=
  (inputFactoryKind p).2

/-- The resolution rules in the order the specification words them:
(1) shaclIn with a non-empty materialized list gives a list editor,
(2) rdf:langString datatype or a non-empty languageIn gives a langstring
editor, (3) the XSD-stripped datatype selects text, number, date or boolean
editors, (4) otherwise a text editor.  (As in the code, an absent or empty
`shaclIn` string does not trigger rule 1.) -/
def resolveSpecRules (p : ShaclPropertySpec) : EditorKind :=
  if shaclInTruthy p && !((materializedList p).getD []).isEmpty then .list
  else if (p.datatype == some rdfLangString) || jsTruthyLen p.languageIn then .langString
  else
    match (p.datatype.map stripXsd).getD "" with
    | "string" => .text
    | "integer" => .number
    | "float" => .number
    | "double" => .number
    | "decimal" => .number
    | "date" => .date
    | "dateTime" => .date
    | "boolean" => .boolean
    | _ => .text

/-- A concrete PropertySpec whose `shaclIn` names a list that has no
materialized entries. -/
def specMissingList : ShaclPropertySpec :=
  { path := "p", datatype := some (PREFIX_XSD ++ "string"),
    classIri := none, nodeKind := none, minCount := none,
    minLength := none, maxLength := none, pattern := none,
    minInclusive := none, maxInclusive := none, minExclusive := none,
    maxExclusive := none, singleLine := none, languageIn := none,
    shaclIn := some "colors", defaultValue := none,
    config := { lists := [], language := none } }

/-- `property.defaultValue?.value || ''`, the initial widget value the
InputBase constructor installs. -/
def defaultEditorValue (p : ShaclPropertySpec) : String :=
  (p.defaultValue.map RDFTerm.value).getD ""

/-- `this.required = property.minCount !== undefined && property.minCount > 0`
from the InputBase constructor (never mutated afterwards). -/
def requiredOf (p : ShaclPropertySpec) : Bool :=
  match p.minCount with
  | some n => decide (0 < n)
  | none => false

/-- The IRI branch guard shared by `InputText.toRDFObject` and
`InputList.toRDFObject`:
`this.property.class || this.property.nodeKind?.id === sh:IRI`. -/
def isIRIBranch (p : ShaclPropertySpec) : Bool :=
  p.classIri.isSome || (p.nodeKind == some shIRI)

/-- The term built from a non-empty widget value by `InputText.toRDFObject`
and `InputList.toRDFObject` (the two methods carry the same branch). -/
def textTermOf (p : ShaclPropertySpec) (v : String) : RDFTerm :=
  if isIRIBranch p then .namedNode v else literalOfDT v p.datatype

/-- State of an `InputText` widget: the control value plus the constraint
attributes its constructor installs.  `multiLine` records whether
`createEditor` produced a textarea. -/
structure InputText where
  property : ShaclPropertySpec
  value : String
  multiLine : Bool
  minLengthAttr : Option Int
  maxLengthAttr : Option Int
  patternAttr : Option String
deriving DecidableEq

/-- The `InputText` constructor: `minLength`, `maxLength` and `pattern` are
copied onto the widget only when truthy (`if (property.minLength) ...`), and
`createEditor` yields a textarea exactly when `singleLine === false`. -/
def mkInputText (p : ShaclPropertySpec) : InputText :=
  { property := p
    value := defaultEditorValue p
    multiLine := p.singleLine == some false
    minLengthAttr := if jsTruthyNum p.minLength then p.minLength else none
    maxLengthAttr := if jsTruthyNum p.maxLength then p.maxLength else none
    patternAttr := if jsTruthyStr p.pattern then p.pattern else none }

/-- Inherited `InputBase.setValue`: `this.editor.value = value.value`. -/
def InputText.setValue (e : InputText) (t : RDFTerm) : InputText :=
  { e with value := t.value }

/-- `InputText.toRDFObject`: named node or typed literal from a non-empty
widget value, undefined otherwise. -/
def InputText.toRDFObject (e : InputText) : Option RDFTerm :=
  if e.value = "" then none else some (textTermOf e.property e.value)

/-- State of an `InputLangString` widget: the text value plus the auxiliary
language chooser (a fixed `select` populated from `languageIn` when that
list is non-empty, a free-text input otherwise). -/
structure InputLangString where
  property : ShaclPropertySpec
  value : String
  chooserIsSelect : Bool
  chooserOptions : List String
  chooserValue : String
deriving DecidableEq

/-- The `InputLangString` constructor (`createLangChooser`): a select whose
options are the `languageIn` tags (a freshly rendered select has its first
option selected, so the initial chooser value is the head of the list), or
an empty free-text input. -/
def mkInputLangString (p : ShaclPropertySpec) : InputLangString :=
  if jsTruthyLen p.languageIn then
    { property := p, value := defaultEditorValue p, chooserIsSelect := true,
      chooserOptions := p.languageIn.getD [],
      chooserValue := (p.languageIn.getD []).headD "" }
  else
    { property := p, value := defaultEditorValue p, chooserIsSelect := false,
      chooserOptions := [], chooserValue := "" }

/-- Assigning a string to the chooser control: a select only takes values
among its options and clears to `""` otherwise; a text input takes any
string (maxLength does not constrain programmatic assignment). -/
def chooserAssign (e : InputLangString) (v : String) : String :=
  if e.chooserIsSelect then (if v ∈ e.chooserOptions then v else "") else v

/-- `InputLangString.setValue`: delegates the text to the base `setValue`
and, when the incoming term is a literal, copies its language tag into the
chooser. -/
def InputLangString.setValue (e : InputLangString) (t : RDFTerm) : InputLangString :=
  match t with
  | .literal v lang _ => { e with value := v, chooserValue := chooserAssign e lang }
  | .namedNode v => { e with value := v }

/-- `InputLangString.toRDFObject`: literal tagged with the chooser value
when non-empty, else typed with the property datatype. -/
def InputLangString.toRDFObject (e : InputLangString) : Option RDFTerm :=
  if e.value = "" then none
  else some (literalOfLangOrDT e.value e.chooserValue e.property.datatype)

/-- State of an `InputBoolean` widget: the checkbox checkedness.  The
`required` flag the asymmetry depends on is the derived `requiredOf`
(set once in the InputBase constructor and never mutated; the constructor
only removes the required *attribute* from the control). -/
structure InputBoolean where
  property : ShaclPropertySpec
  checked : Bool
deriving DecidableEq

/-- A freshly created `InputBoolean`: checkbox unchecked. -/
def mkInputBoolean (p : ShaclPropertySpec) : InputBoolean :=
  { property := p, checked := false }

/-- `InputBoolean.setValue`: only a literal changes the checkbox, which
becomes checked exactly when the lexical value is the string `true`. -/
def InputBoolean.setValue (e : InputBoolean) (t : RDFTerm) : InputBoolean :=
  match t with
  | .literal v _ _ => { e with checked := v == "true" }
  | .namedNode _ => e

/-- `InputBoolean.toRDFObject`: emits `false` only when required. -/
def InputBoolean.toRDFObject (e : InputBoolean) : Option RDFTerm :=
  if e.checked || requiredOf e.property then
    some (literalOfDT (if e.checked then "true" else "false") e.property.datatype)
  else none

/-- State of an `InputNumber` widget: the control value plus the bound and
step attributes its constructor installs.  `minAttr`/`maxAttr` hold the
integer whose decimal rendering `String(min)` the source assigns. -/
structure InputNumber where
  property : ShaclPropertySpec
  value : String
  minAttr : Option Int
  maxAttr : Option Int
  stepAttr : Option String
deriving DecidableEq

/-- `const min = property.minInclusive ? property.minInclusive :
property.minExclusive ? property.minExclusive + 1 : undefined` — note the
JS truthiness tests: a bound equal to 0 is skipped. -/
def numberMin (p : ShaclPropertySpec) : Option Int :=
  if jsTruthyNum p.minInclusive then p.minInclusive
  else if jsTruthyNum p.minExclusive then some (p.minExclusive.getD 0 + 1)
  else none

/-- `const max = property.maxInclusive ? property.maxInclusive :
property.maxExclusive ? property.maxExclusive - 1 : undefined`. -/
def numberMax (p : ShaclPropertySpec) : Option Int :=
  if jsTruthyNum p.maxInclusive then p.maxInclusive
  else if jsTruthyNum p.maxExclusive then some (p.maxExclusive.getD 0 - 1)
  else none

/-- The `InputNumber` constructor: the computed bounds are installed only
when truthy (`if (min) ...`), and the step attribute is set to `0.1` for
every datatype other than xsd:integer (for xsd:integer it stays unset). -/
def mkInputNumber (p : ShaclPropertySpec) : InputNumber :=
  { property := p, value := defaultEditorValue p,
    minAttr := if jsTruthyNum (numberMin p) then numberMin p else none,
    maxAttr := if jsTruthyNum (numberMax p) then numberMax p else none,
    stepAttr := if !(p.datatype == some xsdInteger) then some "0.1" else none }

/-- The step a number control enforces: the step attribute if set, else the
HTML default step of 1 for number inputs. -/
def effectiveStep (e : InputNumber) : String :=
  e.stepAttr.getD "1"

/-- Inherited `InputBase.setValue` on the number control. -/
def InputNumber.setValue (e : InputNumber) (t : RDFTerm) : InputNumber :=
  { e with value := t.value }

/-- State of an `InputDate` widget (a single date or datetime-local
control). -/
structure InputDate where
  property : ShaclPropertySpec
  value : String
deriving DecidableEq

/-- A freshly created `InputDate`. -/
def mkInputDate (p : ShaclPropertySpec) : InputDate :=
  { property := p, value := defaultEditorValue p }

/-- `createEditor` gives the control type `datetime-local` exactly when the
property datatype is xsd:dateTime (`setValue` re-checks the control type,
which is equivalent). -/
def isDateTime (p : ShaclPropertySpec) : Bool :=
  p.datatype == some (PREFIX_XSD ++ "dateTime")

/-- The truncation `InputDate.setValue` applies to the normalized ISO
string: `slice(0, 19)` (whole-second date-time) for a datetime-local
control, `slice(0, 10)` (date only) otherwise. -/
def dateTrunc (p : ShaclPropertySpec) (s : String) : String :=
  if isDateTime p then s.take 19 else s.take 10

/-- `InputDate.setValue`: `norm` is the host's calendar normalizer
`s => new Date(s).toISOString()` (an environment function: its output is a
24-character UTC ISO-8601 string); the normalized string is truncated and
stored through the base `setValue`, so the widget value is the truncated
ISO form. -/
def InputDate.setValue (norm : String → String) (e : InputDate) (t : RDFTerm) : InputDate :=
  { e with value := dateTrunc e.property (norm t.value) }

/-- `InputDate.toRDFObject`: typed literal of the (truncated) widget
value, undefined when empty. -/
def InputDate.toRDFObject (e : InputDate) : Option RDFTerm :=
  if e.value = "" then none else some (literalOfDT e.value e.property.datatype)

/-- `InputListEntry` (inputs.ts): a term plus an optional display label. -/
structure InputListEntry where
  value : RDFTerm
  label : Option String
deriving DecidableEq

/-- State of an `InputList` widget: the select options (each option value
is the entry term's lexical value; the label only affects display) and the
currently selected value. -/
structure InputList where
  property : ShaclPropertySpec
  options : List String
  value : String
deriving DecidableEq

/-- The `InputList` constructor plus `setListEntries`: an empty option is
always injected first, then one option per entry valued by the entry
term's `.value`.  A freshly rendered select has its first option selected,
so the initial value is the injected empty choice. -/
def mkInputList (p : ShaclPropertySpec) (entries : List InputListEntry) : InputList :=
  { property := p,
    options := "" :: entries.map (fun en => en.value.value),
    value := "" }

/-- Inherited `InputBase.setValue` on a select control: assigning a value
selects the matching option, or clears the selection (value `""`) when no
option matches. -/
def InputList.setValue (e : InputList) (t : RDFTerm) : InputList :=
  { e with value := if t.value ∈ e.options then t.value else "" }

/-- The user selecting the choice for entry `i` (choice 0 is the injected
empty one, so entry `i` is option `i + 1`). -/
def selectEntry (e : InputList) (i : Nat) : InputList :=
  { e with value := e.options.getD (i + 1) "" }

/-- `InputList.toRDFObject`: textually identical to
`InputText.toRDFObject`, operating on the selected value. -/
def InputList.toRDFObject (e : InputList) : Option RDFTerm :=
  if e.value = "" then none else some (textTermOf e.property e.value)

/-- The failing input of claim C3: an integer property with
`minInclusive = 0` and `maxExclusive = 10`. -/
def specC3 : ShaclPropertySpec :=
  { path := "p", datatype := some xsdInteger,
    classIri := none, nodeKind := none, minCount := none,
    minLength := none, maxLength := none, pattern := none,
    minInclusive := some 0, maxInclusive := none, minExclusive := none,
    maxExclusive := some 10, singleLine := none, languageIn := none,
    shaclIn := none, defaultValue := none,
    config := { lists := [], language := none } }

/-- The counterexample input of claim C8: a string property with
`maxLength = 0`. -/
def specC8 : ShaclPropertySpec :=
  { path := "p", datatype := some (PREFIX_XSD ++ "string"),
    classIri := none, nodeKind := none, minCount := none,
    minLength := none, maxLength := some 0, pattern := none,
    minInclusive := none, maxInclusive := none, minExclusive := none,
    maxExclusive := none, singleLine := none, languageIn := none,
    shaclIn := none, defaultValue := none,
    config := { lists := [], language := none } }

/-- A concrete IRI-valued property used by the C6 witness. -/
def specC6 : ShaclPropertySpec :=
  { path := "p", datatype := none,
    classIri := some "http://example.org/Color", nodeKind := none,
    minCount := none, minLength := none, maxLength := none, pattern := none,
    minInclusive := none, maxInclusive := none, minExclusive := none,
    maxExclusive := none, singleLine := none, languageIn := none,
    shaclIn := some "colorList", defaultValue := none,
    config := { lists := [("colorList",
      [RDFTerm.namedNode "http://example.org/Red",
       RDFTerm.namedNode "http://example.org/Blue"])], language := none } }

/-- The materialized entries used by the C6 witness. -/
def entriesC6 : List InputListEntry :=
  [{ value := .namedNode "http://example.org/Red", label := some "Red" },
   { value := .namedNode "http://example.org/Blue", label := some "Blue" }]

/-- JavaScript number values as far as `parseFloat` and string rendering
observe them: NaN, signed infinities and finite decimal values
`m * 10 ^ e`.  IEEE-754 double rounding, overflow to infinity and the
exponent notation of `Number::toString` are abstracted: finite values are
kept as exact decimals, and parsing and rendering below treat them
consistently with each other. -/
inductive JSNum where
  | nan
  | inf (neg : Bool)
  | fin (m : Int) (e : Int)
deriving DecidableEq

/-- The ten decimal digit characters. -/
def digitChars : List Char := ['0', '1', '2', '3', '4', '5', '6', '7', '8', '9']

/-- Decimal digit test (ECMA DecimalDigit). -/
def isDigitC (c : Char) : Bool := digitChars.contains c

/-- Numeric value of a digit character. -/
def digitVal (c : Char) : Nat := c.toNat - 48

/-- ECMA StrWhiteSpace characters skipped by `parseFloat` (the common ASCII
ones; exotic unicode space points are not exercised by the claims). -/
def isWS (c : Char) : Bool :=
  c == ' ' || c == '\t' || c == '\n' || c == '\r' || c == '\x0b' || c == '\x0c'

/-- Longest digit prefix and the remainder. -/
def takeDigits : List Char → List Char × List Char
  | [] => ([], [])
  | c :: cs =>
    if isDigitC c then
      let r := takeDigits cs
      (c :: r.1, r.2)
    else ([], c :: cs)

/-- Decimal value accumulated left to right over digit characters. -/
def valDigitsFrom (acc : Nat) (l : List Char) : Nat :=
  l.foldl (fun a c => a * 10 + digitVal c) acc

/-- Decimal value of a digit character list (big endian). -/
def valDigits (l : List Char) : Nat := valDigitsFrom 0 l

/-- Optional leading sign. -/
def parseSign (l : List Char) : Bool × List Char :=
  match l with
  | [] => (false, [])
  | c :: cs =>
    if c = '-' then (true, cs)
    else if c = '+' then (false, cs)
    else (false, c :: cs)

/-- Fractional part: a dot followed by digits (ECMA allows an empty digit
run after the dot when the integer part is non-empty). -/
def parseFracPart (l : List Char) : List Char × List Char :=
  match l with
  | [] => ([], [])
  | c :: cs => if c = '.' then takeDigits cs else ([], c :: cs)

/-- Exponent part: `e`/`E`, an optional sign and a non-empty digit run;
anything else contributes exponent 0 (the `e` is then not part of the
longest valid prefix). -/
def parseExpPart (l : List Char) : Int :=
  match l with
  | [] => 0
  | c :: cs =>
    if c = 'e' ∨ c = 'E' then
      let s := parseSign cs
      let d := takeDigits s.2
      if d.1.isEmpty then 0
      else if s.1 then -(valDigits d.1 : Int) else (valDigits d.1 : Int)
    else 0

/-- Strips factors of ten: returns the reduced value and how many were
stripped.  Fuel-based structural recursion; fuel `n` always suffices. -/
def strip10 : Nat → Nat → Nat × Nat
  | 0, n => (n, 0)
  | fuel + 1, n =>
    if n ≠ 0 ∧ n % 10 = 0 then
      let r := strip10 fuel (n / 10)
      (r.1, r.2 + 1)
    else (n, 0)

/-- Canonicalizes a parsed decimal `(sign, digits value, exponent)` into a
JSNum with a mantissa not divisible by ten (zero becomes `fin 0 0`,
matching `String(-0) = "0"` and `String(0e5) = "0"`). -/
def mkFinJS (neg : Bool) (n : Nat) (e : Int) : JSNum :=
  if n = 0 then .fin 0 0
  else
    let r := strip10 n n
    .fin (if neg then -(r.1 : Int) else (r.1 : Int)) (e + r.2)

/-- The part of `parseFloat` after whitespace and sign: `Infinity`, else
the longest `digits [. digits] [exponent]` prefix; NaN when no prefix
parses. -/
def parseFloatBody (neg : Bool) (l : List Char) : JSNum :=
  if "Infinity".data.isPrefixOf l then .inf neg
  else
    let ip := takeDigits l
    let fp := parseFracPart ip.2
    if ip.1.isEmpty && fp.1.isEmpty then .nan
    else
      let ex := parseExpPart fp.2
      mkFinJS neg (valDigits (ip.1 ++ fp.1)) (ex - (fp.1.length : Int))

/-- JavaScript `parseFloat` (ECMA): skip whitespace, optional sign, then
`parseFloatBody`.  Hexadecimal is not recognized (`"0x10"` parses as 0),
matching `parseFloat`. -/
def parseFloatJS (s : String) : JSNum :=
  let cs := s.data.dropWhile (fun c => isWS c)
  let sg := parseSign cs
  parseFloatBody sg.1 sg.2

/-- Little-endian decimal digits with fuel (`[]` for zero). -/
def natToRevDigits : Nat → Nat → List Nat
  | 0, _ => []
  | fuel + 1, n => if n = 0 then [] else n % 10 :: natToRevDigits fuel (n / 10)

/-- Little-endian decimal digits of a natural number. -/
def natDigitsLE (n : Nat) : List Nat := natToRevDigits n n

/-- The character of a digit. -/
def digitChar (d : Nat) : Char := Char.ofNat (48 + d)

/-- Big-endian digit characters of a natural number (`"0"` for zero). -/
def renderNatChars (n : Nat) : List Char :=
  if n = 0 then ['0'] else ((natDigitsLE n).reverse).map digitChar

/-- JavaScript `String(x)` on the embedded numbers: `NaN`, signed
`Infinity`, and plain positional decimal for finite values (the exponent
notation JS switches to for very large or very small magnitudes is
abstracted into the positional form, consistently with `parseFloatJS`). -/
def renderJS : JSNum → String
  | .nan => "NaN"
  | .inf neg => if neg then "-Infinity" else "Infinity"
  | .fin m e =>
    if m = 0 then "0"
    else
      let sign : List Char := if m < 0 then ['-'] else []
      let ds := renderNatChars m.natAbs
      if 0 ≤ e then ⟨sign ++ ds ++ List.replicate e.toNat '0'⟩
      else
        let k := (-e).toNat
        if k < ds.length then
          ⟨sign ++ ds.take (ds.length - k) ++ '.' :: ds.drop (ds.length - k)⟩
        else
          ⟨sign ++ '0' :: '.' :: (List.replicate (k - ds.length) '0' ++ ds)⟩

/-- `DataFactory.literal(numberValue, datatype?)` (n3) as called by
`InputNumber.toRDFObject`: with a datatype the number is stringified into
the lexical form; without one n3 infers xsd:integer for integer values and
xsd:double otherwise, rendering infinities as INF and -INF. -/
def n3LiteralOfNumber (x : JSNum) (dt : Option String) : RDFTerm :=
  match dt with
  | some d => .literal (renderJS x) "" d
  | none =>
    match x with
    | .fin m e => .literal (renderJS (.fin m e)) "" (if 0 ≤ e then xsdInteger else xsdDouble)
    | .nan => .literal "NaN" "" xsdDouble
    | .inf neg => .literal (if neg then "-INF" else "INF") "" xsdDouble

/-- `InputNumber.toRDFObject`:
`DataFactory.literal(parseFloat(this.editor.value), this.property.datatype)`
for a non-empty widget value, undefined otherwise.  The method is total:
parsing failures yield the NaN value, not an exception. -/
def InputNumber.toRDFObject (e : InputNumber) : Option RDFTerm :=
  if e.value = "" then none
  else some (n3LiteralOfNumber (parseFloatJS e.value) e.property.datatype)

/-- Canonical finite JSNum values: the mantissa of a finite value is not
divisible by ten (and zero carries exponent zero).  Every `parseFloatJS`
output is canonical, and rendering inverts parsing on canonical values. -/
def JSNum.Canon : JSNum → Prop
  | .fin m e => (m = 0 → e = 0) ∧ (m ≠ 0 → ¬(10 ∣ m.natAbs))
  | _ => True

/-- Little-endian digit value. -/
def ofDigitsLE (l : List Nat) : Nat := l.foldr (fun d r => d + 10 * r) 0

/-- Head-shape of the remainder that stops a digit scan. -/
def headNotDigit : List Char → Prop
  | [] => True
  | c :: _ => isDigitC c = false

/-- Observable round-trip set of a Text editor built from `p`: the terms a
reachable widget state can emit. -/
def CanEmitText (p : ShaclPropertySpec) (t : RDFTerm) : Prop :=
  ∃ v, v ≠ "" ∧ t = textTermOf p v

/-- Chooser values reachable on a LangString editor built from `p`: any
string for the free-text chooser; an option or the cleared state for the
fixed select. -/
def chooserReachable (p : ShaclPropertySpec) (c : String) : Prop :=
  if jsTruthyLen p.languageIn then c = "" ∨ c ∈ p.languageIn.getD [] else True

/-- Observable round-trip set of a LangString editor built from `p`. -/
def CanEmitLangString (p : ShaclPropertySpec) (t : RDFTerm) : Prop :=
  ∃ v c, v ≠ "" ∧ chooserReachable p c ∧ t = literalOfLangOrDT v c p.datatype

/-- Observable round-trip set of a Boolean editor built from `p`: `true`
always, `false` only when the property is required. -/
def CanEmitBoolean (p : ShaclPropertySpec) (t : RDFTerm) : Prop :=
  t = literalOfDT "true" p.datatype ∨
    (requiredOf p = true ∧ t = literalOfDT "false" p.datatype)

/-- Observable round-trip set of a Number editor built from `p`. -/
def CanEmitNumber (p : ShaclPropertySpec) (t : RDFTerm) : Prop :=
  ∃ v, v ≠ "" ∧ t = n3LiteralOfNumber (parseFloatJS v) p.datatype

/-- Observable round-trip set of a List editor over the given entries:
one term per selectable entry with a non-empty lexical value. -/
def CanEmitList (p : ShaclPropertySpec) (entries : List InputListEntry)
    (t : RDFTerm) : Prop :=
  ∃ i, ∃ h : i < entries.length,
    (entries.get ⟨i, h⟩).value.value ≠ "" ∧
      t = textTermOf p ((entries.get ⟨i, h⟩).value.value)

/-- A concrete plain-string property used by round-trip witnesses. -/
def specW : ShaclPropertySpec :=
  { path := "p", datatype := some (PREFIX_XSD ++ "string"),
    classIri := none, nodeKind := none, minCount := some 1,
    minLength := none, maxLength := none, pattern := none,
    minInclusive := none, maxInclusive := none, minExclusive := none,
    maxExclusive := none, singleLine := none, languageIn := none,
    shaclIn := none, defaultValue := none,
    config := { lists := [], language := none } }

/-- A concrete langString property with a free-text language chooser. -/
def specLW : ShaclPropertySpec :=
  { path := "p", datatype := some (PREFIX_RDF ++ "langString"),
    classIri := none, nodeKind := none, minCount := none,
    minLength := none, maxLength := none, pattern := none,
    minInclusive := none, maxInclusive := none, minExclusive := none,
    maxExclusive := none, singleLine := none, languageIn := none,
    shaclIn := none, defaultValue := none,
    config := { lists := [], language := none } }

/-- A concrete integer property used by the Number witnesses. -/
def specNum : ShaclPropertySpec :=
  { path := "p", datatype := some xsdInteger,
    classIri := none, nodeKind := none, minCount := none,
    minLength := none, maxLength := none, pattern := none,
    minInclusive := none, maxInclusive := none, minExclusive := none,
    maxExclusive := none, singleLine := none, languageIn := none,
    shaclIn := none, defaultValue := none,
    config := { lists := [], language := none } }

/-- A concrete xsd:date property used by the Date witness. -/
def specDate : ShaclPropertySpec :=
  { path := "p", datatype := some (PREFIX_XSD ++ "date"),
    classIri := none, nodeKind := none, minCount := none,
    minLength := none, maxLength := none, pattern := none,
    minInclusive := none, maxInclusive := none, minExclusive := none,
    maxExclusive := none, singleLine := none, languageIn := none,
    shaclIn := none, defaultValue := none,
    config := { lists := [], language := none } }

/-- A concrete calendar normalizer standing in for
`s => new Date(s).toISOString()` in the Date witness. -/
def dateNormW : String → String := fun _ => "2024-05-06T07:08:09.123Z"

/-- Helper: the post-list part of the resolution never selects a list
editor. -/
theorem resolveAfterList_ne_list (p : ShaclPropertySpec) :
    resolveAfterList p ≠ EditorKind.list := by
  unfold resolveAfterList resolveSwitch
  split
  · intro h; cases h
  · split
    · intro h; cases h
    · split <;> intro h <;> cases h

/-- Helper: the rule list of the specification factors into the list rule
followed by the post-list resolution. -/
theorem resolveSpecRules_eq (p : ShaclPropertySpec) :
    resolveSpecRules p =
      if shaclInTruthy p && !((materializedList p).getD []).isEmpty then .list
      else resolveAfterList p := by
  unfold resolveSpecRules resolveAfterList langStringCase resolveSwitch
  cases p.datatype <;> rfl

/-- C1: `resolve` (inputFactory) is a total function on PropertySpec: every
PropertySpec is mapped to exactly one editor kind (the embedding is a total
Lean function with no error value), and the kind is the one selected by the
first matching rule in the order (1) shaclIn with a non-empty materialized
list gives List, (2) rdf:langString or non-empty languageIn gives
LangString, (3) the XSD-stripped datatype maps string to Text,
integer/float/double/decimal to Number, date/dateTime to Date, boolean to
Boolean, (4) otherwise Text. -/
theorem c1_resolution_total_and_ordered (p : ShaclPropertySpec) :
    resolveKind p = resolveSpecRules p := by
  rw [resolveSpecRules_eq]
  unfold resolveKind inputFactoryKind
  cases hs : shaclInTruthy p
  · simp
  · cases hl : materializedList p
    · simp
    · rename_i l
      cases he : l.isEmpty <;> simp [he]

/-- C1 witness: the resolution computed on a concrete PropertySpec with an
integer datatype. -/
theorem c1_resolution_total_and_ordered_witness :
    resolveKind
      { path := "p", datatype := some (PREFIX_XSD ++ "integer"),
        classIri := none, nodeKind := none, minCount := none,
        minLength := none, maxLength := none, pattern := none,
        minInclusive := none, maxInclusive := none, minExclusive := none,
        maxExclusive := none, singleLine := none, languageIn := none,
        shaclIn := none, defaultValue := none,
        config := { lists := [], language := none } } =
    resolveSpecRules
      { path := "p", datatype := some (PREFIX_XSD ++ "integer"),
        classIri := none, nodeKind := none, minCount := none,
        minLength := none, maxLength := none, pattern := none,
        minInclusive := none, maxInclusive := none, minExclusive := none,
        maxExclusive := none, singleLine := none, languageIn := none,
        shaclIn := none, defaultValue := none,
        config := { lists := [], language := none } } :=
  c1_resolution_total_and_ordered _

/-- C7: when `shaclIn` is set (truthy) but the materialized list is missing
or empty, `inputFactory` emits the non-fatal diagnostic and continues with
the remaining resolution rules, and the result is never a List editor. -/
theorem c7_missing_list_falls_through (p : ShaclPropertySpec)
    (hs : shaclInTruthy p = true)
    (hl : materializedList p = none ∨ materializedList p = some []) :
    resolveDiagnostic p = true ∧ resolveKind p = resolveAfterList p ∧
      resolveKind p ≠ EditorKind.list := by
  have hk : inputFactoryKind p = (resolveAfterList p, true) := by
    unfold inputFactoryKind
    rw [hs]
    rcases hl with h | h <;> simp [h]
  refine ⟨?_, ?_, ?_⟩
  · unfold resolveDiagnostic; rw [hk]
  · unfold resolveKind; rw [hk]
  · unfold resolveKind; rw [hk]
    exact resolveAfterList_ne_list p

/-- C7 witness: the fall-through behaviour at a concrete PropertySpec whose
referenced list is absent. -/
theorem c7_missing_list_falls_through_witness :
    resolveDiagnostic specMissingList = true ∧
      resolveKind specMissingList = resolveAfterList specMissingList ∧
      resolveKind specMissingList ≠ EditorKind.list :=
  c7_missing_list_falls_through specMissingList (by decide) (Or.inl (by decide))

/-- C3: evaluation of the Number editor constructor at the claim's concrete
scenario PropertySpec{datatype=xsd:integer, minInclusive=0, maxExclusive=10}:
because `property.minInclusive ? ...` treats the number 0 as falsy, the
widget gets NO min attribute (the claim expects min=0); the max attribute is
9 as claimed, and the step attribute stays unset so the control uses the
HTML default step of 1. -/
theorem c3_number_bounds_at_failing_input :
    (mkInputNumber specC3).minAttr = none ∧
      (mkInputNumber specC3).maxAttr = some 9 ∧
      (mkInputNumber specC3).stepAttr = none ∧
      effectiveStep (mkInputNumber specC3) = "1" := by
  refine ⟨?_, ?_, ?_, ?_⟩ <;> decide

/-- C4: Boolean editor toTerm asymmetry: checked gives Literal("true")
regardless of requiredness; unchecked and required (minCount > 0) gives
Literal("false"); unchecked and not required gives Absent. -/
theorem c4_boolean_asymmetry (p : ShaclPropertySpec) (c : Bool) :
    InputBoolean.toRDFObject { property := p, checked := c } =
      (if c then some (literalOfDT "true" p.datatype)
       else if requiredOf p then some (literalOfDT "false" p.datatype)
       else none) := by
  unfold InputBoolean.toRDFObject
  cases c <;> cases hr : requiredOf p <;> simp [hr]

/-- C5: for every incoming term, `InputDate.setValue` converts the lexical
value through the calendar normalizer and truncates to 19 characters when
the control is datetime-local (datatype xsd:dateTime), else to 10
characters; the truncated string becomes the widget value, and the literal
later produced by toTerm carries exactly the truncated ISO form. -/
theorem c5_date_setValue_truncates (norm : String → String) (e : InputDate)
    (t : RDFTerm) :
    (e.setValue norm t).value =
      (if isDateTime e.property then (norm t.value).take 19
       else (norm t.value).take 10) ∧
    (e.setValue norm t).toRDFObject =
      (if dateTrunc e.property (norm t.value) = "" then none
       else some (literalOfDT (dateTrunc e.property (norm t.value))
         e.property.datatype)) := by
  constructor
  · unfold InputDate.setValue dateTrunc
    cases h : isDateTime e.property <;> simp [h]
  · rfl

/-- C6: Text and List toTerm return NamedNode(widget value) when class is
set or the node kind is sh:IRI and Literal(widget value, datatype)
otherwise; Absent exactly when the widget value is empty (for List, exactly
when the injected first empty choice is selected); selecting entry i of a
List yields the term built from that entry's value. -/
theorem c6_text_and_list_toTerm :
    (∀ e : InputText,
      e.toRDFObject =
        if e.value = "" then none else some (textTermOf e.property e.value)) ∧
    (∀ e : InputList,
      e.toRDFObject =
        if e.value = "" then none else some (textTermOf e.property e.value)) ∧
    (∀ p entries, (mkInputList p entries).options =
        "" :: entries.map (fun en => en.value.value) ∧
      (mkInputList p entries).value = "") ∧
    (∀ p entries i, ∀ h : i < entries.length,
      (selectEntry (mkInputList p entries) i).toRDFObject =
        (if (entries.get ⟨i, h⟩).value.value = "" then none
         else some (textTermOf p ((entries.get ⟨i, h⟩).value.value)))) ∧
    (∀ p v, textTermOf p v =
      if isIRIBranch p then .namedNode v else literalOfDT v p.datatype) := by
  refine ⟨fun e => rfl, fun e => rfl, fun p entries => ⟨rfl, rfl⟩, ?_,
    fun p v => rfl⟩
  intro p entries i h
  have hv : (selectEntry (mkInputList p entries) i).value =
      (entries.get ⟨i, h⟩).value.value := by
    show ("" :: entries.map (fun en => en.value.value)).getD (i + 1) "" = _
    rw [List.getD_cons_succ, List.getD_eq_get?, List.get?_map,
      List.get?_eq_get h]
    rfl
  unfold InputList.toRDFObject
  rw [hv]
  rfl

/-- C6 witness: selecting the second entry of a concrete list editor whose
property carries a class constraint. -/
theorem c6_text_and_list_toTerm_witness :
    (selectEntry (mkInputList specC6 entriesC6) 1).toRDFObject =
      (if (entriesC6.get ⟨1, by decide⟩).value.value = "" then none
       else some (textTermOf specC6 ((entriesC6.get ⟨1, by decide⟩).value.value))) :=
  c6_text_and_list_toTerm.2.2.2.1 specC6 entriesC6 1 (by decide)

/-- C8 counterexample: the claim as stated fails on the code: a
PropertySpec with `maxLength = 0` has the constraint present, yet the
constructed Text widget carries no maxLength attribute (JS truthiness drops
a zero length), so the constraint is silently dropped. -/
theorem c8_counterexample_maxLength_zero_dropped :
    specC8.maxLength = some 0 ∧ (mkInputText specC8).maxLengthAttr = none := by
  refine ⟨?_, ?_⟩ <;> decide

/-- C8 amended: minLength, maxLength and pattern are applied to the Text
widget whenever present AND truthy (a non-zero length, a non-empty
pattern); a zero length or empty pattern is dropped; the widget is a
multi-line control exactly when singleLine == false. -/
theorem c8_text_constraints_amended (p : ShaclPropertySpec) :
    (∀ n : Int, p.minLength = some n → n ≠ 0 →
      (mkInputText p).minLengthAttr = some n) ∧
    (p.minLength = some 0 ∨ p.minLength = none →
      (mkInputText p).minLengthAttr = none) ∧
    (∀ n : Int, p.maxLength = some n → n ≠ 0 →
      (mkInputText p).maxLengthAttr = some n) ∧
    (p.maxLength = some 0 ∨ p.maxLength = none →
      (mkInputText p).maxLengthAttr = none) ∧
    (∀ s, p.pattern = some s → s ≠ "" →
      (mkInputText p).patternAttr = some s) ∧
    (p.pattern = some "" ∨ p.pattern = none →
      (mkInputText p).patternAttr = none) ∧
    ((mkInputText p).multiLine = true ↔ p.singleLine = some false) := by
  refine ⟨?_, ?_, ?_, ?_, ?_, ?_, ?_⟩
  · intro n hn h0
    simp [mkInputText, jsTruthyNum, hn, h0]
  · rintro (h | h) <;> simp [mkInputText, jsTruthyNum, h]
  · intro n hn h0
    simp [mkInputText, jsTruthyNum, hn, h0]
  · rintro (h | h) <;> simp [mkInputText, jsTruthyNum, h]
  · intro s hs h0
    simp [mkInputText, jsTruthyStr, hs, h0]
  · rintro (h | h) <;> simp [mkInputText, jsTruthyStr, h]
  · simp [mkInputText]

/-- C8 amended witness: the behaviour at a concrete PropertySpec carrying a
non-zero maxLength and a pattern. -/
theorem c8_text_constraints_amended_witness :
    (mkInputText
      { path := "p", datatype := some (PREFIX_XSD ++ "string"),
        classIri := none, nodeKind := none, minCount := none,
        minLength := none, maxLength := some 20, pattern := some "[a-z]+",
        minInclusive := none, maxInclusive := none, minExclusive := none,
        maxExclusive := none, singleLine := none, languageIn := none,
        shaclIn := none, defaultValue := none,
        config := { lists := [], language := none } }).maxLengthAttr = some 20 ∧
    (mkInputText
      { path := "p", datatype := some (PREFIX_XSD ++ "string"),
        classIri := none, nodeKind := none, minCount := none,
        minLength := none, maxLength := some 20, pattern := some "[a-z]+",
        minInclusive := none, maxInclusive := none, minExclusive := none,
        maxExclusive := none, singleLine := none, languageIn := none,
        shaclIn := none, defaultValue := none,
        config := { lists := [], language := none } }).patternAttr = some "[a-z]+" :=
  ⟨(c8_text_constraints_amended _).2.2.1 20 rfl (by decide),
   (c8_text_constraints_amended _).2.2.2.2.1 "[a-z]+" rfl (by decide)⟩

/-- C10: the Boolean editor's setValue checks the toggle exactly when the
supplied term is a literal whose lexical value is exactly the string "true"
(other lexical forms such as "1" or "TRUE" uncheck it), and a named node
leaves the editor state entirely unchanged. -/
theorem c10_boolean_setValue (e : InputBoolean) :
    (∀ v lang dtv, (e.setValue (.literal v lang dtv)).checked = (v == "true")) ∧
    (∀ v lang dtv,
      ((e.setValue (.literal v lang dtv)).checked = true ↔ v = "true")) ∧
    (∀ v lang dtv, (e.setValue (.literal v lang dtv)).property = e.property) ∧
    (∀ iri, e.setValue (.namedNode iri) = e) ∧
    (e.setValue (.literal "1" "" xsdString)).checked = false ∧
    (e.setValue (.literal "TRUE" "" xsdString)).checked = false := by
  refine ⟨fun v lang dtv => rfl, fun v lang dtv => ?_,
    fun v lang dtv => rfl, fun iri => rfl, rfl, rfl⟩
  simp [InputBoolean.setValue]

/-- A digit character is one of the ten digits. -/
theorem eq_of_isDigitC {c : Char} (h : isDigitC c = true) :
    c = '0' ∨ c = '1' ∨ c = '2' ∨ c = '3' ∨ c = '4' ∨ c = '5' ∨ c = '6' ∨
      c = '7' ∨ c = '8' ∨ c = '9' := by
  unfold isDigitC at h
  have h' : c ∈ digitChars := List.mem_of_elem_eq_true h
  simpa [digitChars] using h'

/-- Digit characters are none of the delimiters the parser inspects. -/
theorem digit_side {c : Char} (h : isDigitC c = true) :
    isWS c = false ∧ c ≠ '-' ∧ c ≠ '+' ∧ c ≠ '.' ∧ c ≠ 'e' ∧ c ≠ 'E' ∧
      c ≠ 'I' := by
  rcases eq_of_isDigitC h with rfl | rfl | rfl | rfl | rfl | rfl | rfl | rfl |
    rfl | rfl <;> decide

/-- The character of a digit is a digit character. -/
theorem isDigitC_digitChar {d : Nat} (h : d < 10) : isDigitC (digitChar d) = true := by
  interval_cases d <;> decide

/-- Round trip of a single digit through its character. -/
theorem digitVal_digitChar {d : Nat} (h : d < 10) : digitVal (digitChar d) = d := by
  interval_cases d <;> decide

/-- The left fold distributes over append. -/
theorem valDigitsFrom_append (acc : Nat) (a b : List Char) :
    valDigitsFrom acc (a ++ b) = valDigitsFrom (valDigitsFrom acc a) b := by
  simp [valDigitsFrom, List.foldl_append]

/-- The accumulator contributes a factor of `10 ^ length`. -/
theorem valDigitsFrom_eq (acc : Nat) (l : List Char) :
    valDigitsFrom acc l = acc * 10 ^ l.length + valDigits l := by
  induction l generalizing acc with
  | nil => simp [valDigitsFrom, valDigits]
  | cons c cs ih =>
    have h1 : valDigitsFrom acc (c :: cs) = valDigitsFrom (acc * 10 + digitVal c) cs := rfl
    have h2 : valDigits (c :: cs) = valDigitsFrom (0 * 10 + digitVal c) cs := rfl
    rw [h1, h2, ih (acc * 10 + digitVal c), ih (0 * 10 + digitVal c), List.length_cons]
    ring

/-- Digit-string concatenation in terms of values. -/
theorem valDigits_append (a b : List Char) :
    valDigits (a ++ b) = valDigits a * 10 ^ b.length + valDigits b := by
  unfold valDigits
  rw [valDigitsFrom_append]
  exact valDigitsFrom_eq _ _

/-- A run of zero characters has value zero. -/
theorem valDigits_replicate_zero (k : Nat) :
    valDigits (List.replicate k '0') = 0 := by
  induction k with
  | zero => rfl
  | succ n ih =>
    have h : List.replicate (n + 1) '0' = '0' :: List.replicate n '0' := rfl
    rw [h]
    show valDigitsFrom (0 * 10 + digitVal '0') (List.replicate n '0') = 0
    exact ih

/-- With enough fuel, the little-endian digits evaluate back to the
number. -/
theorem ofDigitsLE_natToRevDigits : ∀ fuel n, n ≤ fuel →
    ofDigitsLE (natToRevDigits fuel n) = n := by
  intro fuel
  induction fuel with
  | zero =>
    intro n h
    have h0 : n = 0 := Nat.le_zero.mp h
    subst h0; rfl
  | succ f ih =>
    intro n h
    simp only [natToRevDigits]
    by_cases hn : n = 0
    · rw [if_pos hn]; simpa [ofDigitsLE] using hn.symm
    · rw [if_neg hn]
      have h1 : n / 10 < n := Nat.div_lt_self (Nat.pos_of_ne_zero hn) (by norm_num)
      have h2 : n / 10 ≤ f := by omega
      show n % 10 + 10 * ofDigitsLE (natToRevDigits f (n / 10)) = n
      rw [ih _ h2]
      exact Nat.mod_add_div n 10

/-- Little-endian digits are below ten. -/
theorem natToRevDigits_lt : ∀ fuel n d, d ∈ natToRevDigits fuel n → d < 10 := by
  intro fuel
  induction fuel with
  | zero => intro n d hd; simp [natToRevDigits] at hd
  | succ f ih =>
    intro n d hd
    simp only [natToRevDigits] at hd
    by_cases hn : n = 0
    · rw [if_pos hn] at hd; simp at hd
    · rw [if_neg hn] at hd
      rcases List.mem_cons.mp hd with h | h
      · exact h ▸ Nat.mod_lt _ (by norm_num)
      · exact ih _ _ h

/-- The rendered characters of a natural number are digits. -/
theorem renderNatChars_digits (n : Nat) :
    ∀ c ∈ renderNatChars n, isDigitC c = true := by
  intro c hc
  unfold renderNatChars at hc
  by_cases hn : n = 0
  · rw [if_pos hn] at hc
    simp at hc
    subst hc; decide
  · rw [if_neg hn] at hc
    rcases List.mem_map.mp hc with ⟨d, hd, rfl⟩
    exact isDigitC_digitChar (natToRevDigits_lt n n d (List.mem_reverse.mp hd))

/-- The rendered characters of a natural number are never empty. -/
theorem renderNatChars_ne_nil (n : Nat) : renderNatChars n ≠ [] := by
  unfold renderNatChars
  by_cases hn : n = 0
  · rw [if_pos hn]; simp
  · rw [if_neg hn]
    simp only [ne_eq, List.map_eq_nil, List.reverse_eq_nil_iff]
    unfold natDigitsLE
    cases hf : n with
    | zero => exact absurd hf hn
    | succ f =>
      simp only [natToRevDigits]
      rw [if_neg (hf ▸ hn)]
      simp

/-- Big-endian digit characters evaluate to the little-endian value. -/
theorem valDigits_map_reverse (l : List Nat) (h : ∀ d ∈ l, d < 10) :
    valDigits ((l.reverse).map digitChar) = ofDigitsLE l := by
  induction l with
  | nil => rfl
  | cons d ds ih =>
    rw [List.reverse_cons, List.map_append]
    simp only [List.map_cons, List.map_nil]
    rw [valDigits_append]
    have hd : d < 10 := h d (List.mem_cons_self d ds)
    have h1 : valDigits ([digitChar d]) = d := by
      show valDigitsFrom (0 * 10 + digitVal (digitChar d)) [] = d
      simpa [valDigitsFrom] using digitVal_digitChar hd
    rw [h1, ih (fun x hx => h x (List.mem_cons_of_mem _ hx))]
    show ofDigitsLE ds * 10 ^ 1 + d = d + 10 * ofDigitsLE ds
    ring

/-- Rendering then evaluating digit characters is the identity. -/
theorem valDigits_renderNatChars (n : Nat) : valDigits (renderNatChars n) = n := by
  unfold renderNatChars
  by_cases hn : n = 0
  · rw [if_pos hn, hn]; rfl
  · rw [if_neg hn]
    rw [valDigits_map_reverse (natDigitsLE n) (fun d hd => natToRevDigits_lt n n d hd)]
    exact ofDigitsLE_natToRevDigits n n le_rfl

/-- The digit scanner splits a digit run from a non-digit remainder. -/
theorem takeDigits_append (a b : List Char) (ha : ∀ c ∈ a, isDigitC c = true)
    (hb : headNotDigit b) : takeDigits (a ++ b) = (a, b) := by
  induction a with
  | nil =>
    simp only [List.nil_append]
    cases b with
    | nil => rfl
    | cons c cs =>
      unfold headNotDigit at hb
      simp [takeDigits, hb]
  | cons x xs ih =>
    have hx : isDigitC x = true := ha x (List.mem_cons_self _ _)
    have ih' := ih (fun c hc => ha c (List.mem_cons_of_mem _ hc))
    simp [takeDigits, hx, ih']

/-- Zero runs consist of digit characters. -/
theorem replicate_zero_digits (k : Nat) :
    ∀ c ∈ List.replicate k '0', isDigitC c = true := by
  intro c hc
  rw [List.eq_of_mem_replicate hc]
  decide

/-- Stripping factors of ten from `m * 10 ^ k` with a canonical `m`. -/
theorem strip10_pow (k : Nat) : ∀ fuel m, m ≠ 0 → ¬(10 ∣ m) → k ≤ fuel →
    strip10 fuel (m * 10 ^ k) = (m, k) := by
  induction k with
  | zero =>
    intro fuel m hm hd _
    cases fuel with
    | zero => simp [strip10]
    | succ f =>
      simp only [strip10, pow_zero, mul_one]
      rw [if_neg]
      rintro ⟨h1, h2⟩
      exact hd (Nat.dvd_iff_mod_eq_zero.mpr h2)
  | succ k ih =>
    intro fuel m hm hd hk
    cases fuel with
    | zero => omega
    | succ f =>
      have hpos : m * 10 ^ (k + 1) ≠ 0 :=
        Nat.mul_ne_zero hm (pow_ne_zero _ (by norm_num))
      have hmod : (m * 10 ^ (k + 1)) % 10 = 0 := by
        rw [pow_succ, ← mul_assoc]
        exact Nat.mul_mod_left _ 10
      simp only [strip10]
      rw [if_pos ⟨hpos, hmod⟩]
      have hdiv : m * 10 ^ (k + 1) / 10 = m * 10 ^ k := by
        rw [pow_succ, ← mul_assoc]
        exact Nat.mul_div_cancel _ (by norm_num)
      rw [hdiv, ih f m hm hd (by omega)]

/-- Every non-zero natural number splits into a mantissa not divisible by
ten and a power of ten. -/
theorem exists_pow_decomp (n : Nat) (hn : n ≠ 0) :
    ∃ m k, m ≠ 0 ∧ ¬(10 ∣ m) ∧ n = m * 10 ^ k := by
  induction n using Nat.strong_induction_on with
  | _ n ih =>
    by_cases hd : 10 ∣ n
    · obtain ⟨c, rfl⟩ := hd
      have hc : c ≠ 0 := by rintro rfl; simp at hn
      have hlt : c < 10 * c := by omega
      obtain ⟨m, k, hm, hdm, heq⟩ := ih c hlt hc
      exact ⟨m, k + 1, hm, hdm, by rw [heq]; ring⟩
    · exact ⟨n, 0, hn, hd, by ring⟩

/-- Self-fueled stripping of a canonical decomposition. -/
theorem strip10_self (m k : Nat) (hm : m ≠ 0) (hd : ¬(10 ∣ m)) :
    strip10 (m * 10 ^ k) (m * 10 ^ k) = (m, k) := by
  apply strip10_pow k _ m hm hd
  have h1 : k < 10 ^ k := Nat.lt_pow_self (by norm_num) k
  have h2 : 1 * 10 ^ k ≤ m * 10 ^ k :=
    Nat.mul_le_mul_right _ (Nat.pos_of_ne_zero hm)
  omega

/-- Canonicalization of a value already presented as mantissa times a
power of ten. -/
theorem mkFinJS_eq (neg : Bool) (m k : Nat) (e : Int) (hm : m ≠ 0)
    (hd : ¬(10 ∣ m)) :
    mkFinJS neg (m * 10 ^ k) e =
      .fin (if neg then -(m : Int) else (m : Int)) (e + k) := by
  unfold mkFinJS
  rw [if_neg (Nat.mul_ne_zero hm (pow_ne_zero k (by norm_num)))]
  rw [strip10_self m k hm hd]

/-- Every canonicalized finite value is canonical. -/
theorem mkFinJS_canon (neg : Bool) (n : Nat) (e : Int) :
    (mkFinJS neg n e).Canon := by
  by_cases hn : n = 0
  · subst hn
    unfold mkFinJS
    rw [if_pos rfl]
    exact ⟨fun _ => rfl, fun h => absurd rfl h⟩
  · obtain ⟨m, k, hm, hdm, rfl⟩ := exists_pow_decomp n hn
    rw [mkFinJS_eq neg m k e hm hdm]
    refine ⟨?_, fun _ => ?_⟩
    · intro h0
      exfalso
      cases neg <;> simp at h0 <;> omega
    · cases neg <;> simpa [Int.natAbs_neg] using hdm

/-- Every output of the parser body is canonical. -/
theorem parseFloatBody_canon (neg : Bool) (l : List Char) :
    (parseFloatBody neg l).Canon := by
  unfold parseFloatBody
  dsimp only
  split
  · trivial
  · split
    · trivial
    · exact mkFinJS_canon _ _ _

/-- Every `parseFloat` output is canonical. -/
theorem parse_canon (s : String) : (parseFloatJS s).Canon :=
  parseFloatBody_canon _ _

/-- Whitespace skipping stops at a non-whitespace head. -/
theorem dropWhile_isWS_head (c : Char) (cs : List Char) (h : isWS c = false) :
    List.dropWhile (fun x => isWS x) (c :: cs) = c :: cs := by
  simp [List.dropWhile_cons, h]

/-- The sign scanner on a signless head. -/
theorem parseSign_head (c : Char) (cs : List Char) (h1 : c ≠ '-')
    (h2 : c ≠ '+') : parseSign (c :: cs) = (false, c :: cs) := by
  show (if c = '-' then (true, cs)
    else if c = '+' then (false, cs) else (false, c :: cs)) = (false, c :: cs)
  rw [if_neg h1, if_neg h2]

/-- The sign scanner on a minus head. -/
theorem parseSign_minus (cs : List Char) : parseSign ('-' :: cs) = (true, cs) := rfl

/-- The Infinity keyword never starts at a non-I head. -/
theorem infinity_not_prefix (c : Char) (cs : List Char) (h : c ≠ 'I') :
    "Infinity".data.isPrefixOf (c :: cs) = false := by
  have hd : "Infinity".data = 'I' :: "nfinity".data := rfl
  have h1 : ('I' == c) = false := beq_eq_false_iff_ne.mpr (Ne.symm h)
  rw [hd]
  simp [List.isPrefixOf, h1]

/-- The parser body on a digit run, an optional fraction and no exponent:
the value of all digits scaled down by the fraction length. -/
theorem parseFloatBody_eq (neg : Bool) (a b : List Char)
    (ha : ∀ c ∈ a, isDigitC c = true) (hb : ∀ c ∈ b, isDigitC c = true)
    (hne : a ≠ []) :
    parseFloatBody neg (a ++ (if b.isEmpty then [] else '.' :: b)) =
      mkFinJS neg (valDigits (a ++ b)) (-(b.length : Int)) := by
  obtain ⟨c, cs, rfl⟩ : ∃ c cs, a = c :: cs := by
    cases a with
    | nil => exact absurd rfl hne
    | cons c cs => exact ⟨c, cs, rfl⟩
  have hc : isDigitC c = true := ha c (List.mem_cons_self _ _)
  obtain ⟨hws, hm, hp, hdot, he1, he2, hI⟩ := digit_side hc
  have htail : headNotDigit (if b.isEmpty then [] else '.' :: b) := by
    cases b with
    | nil => simp [headNotDigit]
    | cons x xs =>
      simp only [List.isEmpty_cons, Bool.false_eq_true, if_false]
      exact (by decide : isDigitC '.' = false)
  have htake : takeDigits ((c :: cs) ++ (if b.isEmpty then [] else '.' :: b)) =
      (c :: cs, if b.isEmpty then [] else '.' :: b) :=
    takeDigits_append _ _ ha htail
  have hfrac : parseFracPart (if b.isEmpty then [] else '.' :: b) = (b, []) := by
    cases b with
    | nil => rfl
    | cons x xs =>
      simp only [List.isEmpty_cons, Bool.false_eq_true, if_false]
      show (if ('.' : Char) = '.' then takeDigits (x :: xs)
        else ([], '.' :: x :: xs)) = (x :: xs, [])
      rw [if_pos rfl]
      have h0 := takeDigits_append (x :: xs) [] hb (by trivial)
      rwa [List.append_nil] at h0
  have hInf : "Infinity".data.isPrefixOf ((c :: cs) ++
      (if b.isEmpty then [] else '.' :: b)) = false := by
    rw [List.cons_append]
    exact infinity_not_prefix _ _ hI
  unfold parseFloatBody
  rw [hInf]
  simp only [Bool.false_eq_true, if_false]
  rw [htake]
  dsimp only
  rw [hfrac]
  dsimp only
  simp only [List.isEmpty_cons, Bool.false_and, Bool.false_eq_true, if_false]
  show mkFinJS neg (valDigits ((c :: cs) ++ b)) (parseExpPart [] - (b.length : Int)) = _
  have hexp : parseExpPart ([] : List Char) = 0 := rfl
  rw [hexp, zero_sub]

/-- `parseFloat` on a rendered signed decimal: the sign, digits and
fraction are recovered. -/
theorem parseFloatJS_core (neg : Bool) (a b : List Char)
    (ha : ∀ c ∈ a, isDigitC c = true) (hb : ∀ c ∈ b, isDigitC c = true)
    (hne : a ≠ []) :
    parseFloatJS ⟨(if neg then ['-'] else []) ++ a ++
        (if b.isEmpty then [] else '.' :: b)⟩ =
      mkFinJS neg (valDigits (a ++ b)) (-(b.length : Int)) := by
  obtain ⟨c, cs, rfl⟩ : ∃ c cs, a = c :: cs := by
    cases a with
    | nil => exact absurd rfl hne
    | cons c cs => exact ⟨c, cs, rfl⟩
  have hc : isDigitC c = true := ha c (List.mem_cons_self _ _)
  obtain ⟨hws, hm, hp, hdot, he1, he2, hI⟩ := digit_side hc
  unfold parseFloatJS
  dsimp only
  cases neg with
  | false =>
    simp only [if_false, Bool.false_eq_true, List.nil_append, List.cons_append]
    rw [dropWhile_isWS_head c _ hws, parseSign_head c _ hm hp]
    dsimp only
    rw [← List.cons_append]
    exact parseFloatBody_eq false (c :: cs) b ha hb (by simp)
  | true =>
    simp only [if_true, List.cons_append, List.nil_append]
    rw [dropWhile_isWS_head '-' _ (by decide), parseSign_minus]
    dsimp only
    rw [← List.cons_append]
    exact parseFloatBody_eq true (c :: cs) b ha hb (by simp)

/-- `parseFloat` on an unsigned digit run. -/
theorem parse_digits_pos (a : List Char) (ha : ∀ c ∈ a, isDigitC c = true)
    (hne : a ≠ []) : parseFloatJS ⟨a⟩ = mkFinJS false (valDigits a) 0 := by
  simpa using parseFloatJS_core false a [] ha (by simp) hne

/-- `parseFloat` on a negated digit run. -/
theorem parse_digits_neg (a : List Char) (ha : ∀ c ∈ a, isDigitC c = true)
    (hne : a ≠ []) :
    parseFloatJS ⟨'-' :: a⟩ = mkFinJS true (valDigits a) 0 := by
  simpa using parseFloatJS_core true a [] ha (by simp) hne

/-- `parseFloat` on an unsigned decimal with a fraction. -/
theorem parse_frac_pos (a b : List Char) (ha : ∀ c ∈ a, isDigitC c = true)
    (hb : ∀ c ∈ b, isDigitC c = true) (hne : a ≠ []) (hbne : b ≠ []) :
    parseFloatJS ⟨a ++ '.' :: b⟩ =
      mkFinJS false (valDigits (a ++ b)) (-(b.length : Int)) := by
  obtain ⟨x, xs, rfl⟩ : ∃ x xs, b = x :: xs := by
    cases b with
    | nil => exact absurd rfl hbne
    | cons x xs => exact ⟨x, xs, rfl⟩
  simpa using parseFloatJS_core false a (x :: xs) ha hb hne

/-- `parseFloat` on a negated decimal with a fraction. -/
theorem parse_frac_neg (a b : List Char) (ha : ∀ c ∈ a, isDigitC c = true)
    (hb : ∀ c ∈ b, isDigitC c = true) (hne : a ≠ []) (hbne : b ≠ []) :
    parseFloatJS ⟨'-' :: (a ++ '.' :: b)⟩ =
      mkFinJS true (valDigits (a ++ b)) (-(b.length : Int)) := by
  obtain ⟨x, xs, rfl⟩ : ∃ x xs, b = x :: xs := by
    cases b with
    | nil => exact absurd rfl hbne
    | cons x xs => exact ⟨x, xs, rfl⟩
  simpa using parseFloatJS_core true a (x :: xs) ha hb hne

/-- Congruence for finite values. -/
theorem fin_congr {a b c d : Int} (h1 : a = b) (h2 : c = d) :
    JSNum.fin a c = JSNum.fin b d := by rw [h1, h2]

/-- Rendering inverts parsing on canonical values: the central round-trip
fact behind the Number editor law. -/
theorem parse_render (x : JSNum) (hx : x.Canon) :
    parseFloatJS (renderJS x) = x := by
  cases x with
  | nan => decide
  | inf neg => cases neg <;> decide
  | fin m e =>
    by_cases hm : m = 0
    · subst hm
      have he : e = 0 := hx.1 rfl
      subst he
      decide
    · have hd10 : ¬(10 ∣ m.natAbs) := hx.2 hm
      have hn0 : m.natAbs ≠ 0 := Int.natAbs_ne_zero.mpr hm
      have hdig := renderNatChars_digits m.natAbs
      have hnil := renderNatChars_ne_nil m.natAbs
      have hval := valDigits_renderNatChars m.natAbs
      unfold renderJS
      dsimp only
      rw [if_neg hm]
      by_cases he : 0 ≤ e
      · rw [if_pos he]
        have ha : ∀ c ∈ renderNatChars m.natAbs ++
            List.replicate e.toNat '0', isDigitC c = true := by
          intro c hc
          rcases List.mem_append.mp hc with h | h
          · exact hdig c h
          · exact replicate_zero_digits _ c h
        have hane : renderNatChars m.natAbs ++ List.replicate e.toNat '0' ≠ [] := by
          simp [hnil]
        have hv : valDigits (renderNatChars m.natAbs ++
            List.replicate e.toNat '0') = m.natAbs * 10 ^ e.toNat := by
          rw [valDigits_append, hval, valDigits_replicate_zero,
            List.length_replicate]
          ring
        by_cases hneg : m < 0
        · rw [if_pos hneg]
          simp only [List.cons_append, List.nil_append]
          rw [parse_digits_neg _ ha hane, hv,
            mkFinJS_eq true m.natAbs e.toNat 0 hn0 hd10]
          refine fin_congr ?_ ?_
          · show -(m.natAbs : Int) = m
            omega
          · omega
        · rw [if_neg hneg]
          simp only [List.nil_append]
          rw [parse_digits_pos _ ha hane, hv,
            mkFinJS_eq false m.natAbs e.toNat 0 hn0 hd10]
          refine fin_congr ?_ ?_
          · show (m.natAbs : Int) = m
            omega
          · omega
      · rw [if_neg he]
        by_cases hk : (-e).toNat < (renderNatChars m.natAbs).length
        · rw [if_pos hk]
          have hsub := List.take_append_drop
            ((renderNatChars m.natAbs).length - (-e).toNat) (renderNatChars m.natAbs)
          have hta : ∀ c ∈ (renderNatChars m.natAbs).take
              ((renderNatChars m.natAbs).length - (-e).toNat), isDigitC c = true :=
            fun c hc => hdig c (List.take_subset _ _ hc)
          have htb : ∀ c ∈ (renderNatChars m.natAbs).drop
              ((renderNatChars m.natAbs).length - (-e).toNat), isDigitC c = true :=
            fun c hc => hdig c (List.drop_subset _ _ hc)
          have hlt : (renderNatChars m.natAbs).take
              ((renderNatChars m.natAbs).length - (-e).toNat) ≠ [] := by
            have hlen : ((renderNatChars m.natAbs).take
                ((renderNatChars m.natAbs).length - (-e).toNat)).length =
                (renderNatChars m.natAbs).length - (-e).toNat := by
              rw [List.length_take]
              omega
            intro hcon
            rw [hcon] at hlen
            simp at hlen
            omega
          have hld : ((renderNatChars m.natAbs).drop
              ((renderNatChars m.natAbs).length - (-e).toNat)).length = (-e).toNat := by
            rw [List.length_drop]
            omega
          have hlb : (renderNatChars m.natAbs).drop
              ((renderNatChars m.natAbs).length - (-e).toNat) ≠ [] := by
            intro hcon
            rw [hcon] at hld
            simp at hld
            omega
          by_cases hneg : m < 0
          · rw [if_pos hneg]
            simp only [List.cons_append, List.nil_append]
            rw [parse_frac_neg _ _ hta htb hlt hlb, hsub, hval, hld]
            have hfix : m.natAbs = m.natAbs * 10 ^ 0 := by ring
            rw [hfix, mkFinJS_eq true m.natAbs 0 _ hn0 hd10]
            refine fin_congr ?_ ?_
            · show -(m.natAbs : Int) = m
              omega
            · omega
          · rw [if_neg hneg]
            simp only [List.nil_append]
            rw [parse_frac_pos _ _ hta htb hlt hlb, hsub, hval, hld]
            have hfix : m.natAbs = m.natAbs * 10 ^ 0 := by ring
            rw [hfix, mkFinJS_eq false m.natAbs 0 _ hn0 hd10]
            refine fin_congr ?_ ?_
            · show (m.natAbs : Int) = m
              omega
            · omega
        · rw [if_neg hk]
          have hb : ∀ c ∈ List.replicate ((-e).toNat -
              (renderNatChars m.natAbs).length) '0' ++ renderNatChars m.natAbs,
              isDigitC c = true := by
            intro c hc
            rcases List.mem_append.mp hc with h | h
            · exact replicate_zero_digits _ c h
            · exact hdig c h
          have hbne : List.replicate ((-e).toNat -
              (renderNatChars m.natAbs).length) '0' ++ renderNatChars m.natAbs ≠ [] := by
            simp [hnil]
          have hvb : valDigits (List.replicate ((-e).toNat -
              (renderNatChars m.natAbs).length) '0' ++ renderNatChars m.natAbs) =
              m.natAbs := by
            rw [valDigits_append, valDigits_replicate_zero, hval]
            ring
          have hlb : (List.replicate ((-e).toNat -
              (renderNatChars m.natAbs).length) '0' ++
              renderNatChars m.natAbs).length = (-e).toNat := by
            rw [List.length_append, List.length_replicate]
            have hlen : 0 < (renderNatChars m.natAbs).length :=
              List.length_pos.mpr hnil
            omega
          have ha0 : ∀ c ∈ ['0'], isDigitC c = true := by
            intro c hc
            simp at hc
            subst hc; decide
          by_cases hneg : m < 0
          · rw [if_pos hneg]
            have h := parse_frac_neg ['0'] _ ha0 hb (by simp) hbne
            simp only [List.singleton_append] at h
            simp only [List.cons_append, List.nil_append]
            rw [h]
            have hv0 : valDigits ('0' :: (List.replicate ((-e).toNat -
                (renderNatChars m.natAbs).length) '0' ++
                renderNatChars m.natAbs)) = m.natAbs := by
              have hsplit : ('0' :: (List.replicate ((-e).toNat -
                  (renderNatChars m.natAbs).length) '0' ++
                  renderNatChars m.natAbs)) = ['0'] ++
                  (List.replicate ((-e).toNat -
                  (renderNatChars m.natAbs).length) '0' ++
                  renderNatChars m.natAbs) := rfl
              rw [hsplit, valDigits_append, hvb,
                show valDigits ['0'] = 0 from rfl]
              ring
            rw [hv0, hlb]
            have hfix : m.natAbs = m.natAbs * 10 ^ 0 := by ring
            rw [hfix, mkFinJS_eq true m.natAbs 0 _ hn0 hd10]
            refine fin_congr ?_ ?_
            · show -(m.natAbs : Int) = m
              omega
            · omega
          · rw [if_neg hneg]
            have h := parse_frac_pos ['0'] _ ha0 hb (by simp) hbne
            simp only [List.singleton_append] at h
            simp only [List.nil_append]
            rw [h]
            have hv0 : valDigits ('0' :: (List.replicate ((-e).toNat -
                (renderNatChars m.natAbs).length) '0' ++
                renderNatChars m.natAbs)) = m.natAbs := by
              have hsplit : ('0' :: (List.replicate ((-e).toNat -
                  (renderNatChars m.natAbs).length) '0' ++
                  renderNatChars m.natAbs)) = ['0'] ++
                  (List.replicate ((-e).toNat -
                  (renderNatChars m.natAbs).length) '0' ++
                  renderNatChars m.natAbs) := rfl
              rw [hsplit, valDigits_append, hvb,
                show valDigits ['0'] = 0 from rfl]
              ring
            rw [hv0, hlb]
            have hfix : m.natAbs = m.natAbs * 10 ^ 0 := by ring
            rw [hfix, mkFinJS_eq false m.natAbs 0 _ hn0 hd10]
            refine fin_congr ?_ ?_
            · show (m.natAbs : Int) = m
              omega
            · omega

/-- Parsing is idempotent through rendering: re-reading a rendered number
gives the same value. -/
theorem parse_render_parse (s : String) :
    parseFloatJS (renderJS (parseFloatJS s)) = parseFloatJS s :=
  parse_render _ (parse_canon s)

/-- A rendered number is never the empty string. -/
theorem renderJS_ne_empty (x : JSNum) : renderJS x ≠ "" := by
  cases x with
  | nan => decide
  | inf neg => cases neg <;> decide
  | fin m e =>
    unfold renderJS
    dsimp only
    by_cases hm : m = 0
    · rw [if_pos hm]; decide
    · rw [if_neg hm]
      have hnil := renderNatChars_ne_nil m.natAbs
      by_cases he : 0 ≤ e
      · rw [if_pos he]
        intro hcon
        have h2 : (if m < 0 then ['-'] else []) ++ renderNatChars m.natAbs ++
            List.replicate e.toNat '0' = ([] : List Char) :=
          congrArg String.data hcon
        have h3 := (List.append_eq_nil.mp h2).1
        exact hnil (List.append_eq_nil.mp h3).2
      · rw [if_neg he]
        by_cases hk : (-e).toNat < (renderNatChars m.natAbs).length
        · rw [if_pos hk]
          intro hcon
          have h2 : (if m < 0 then ['-'] else []) ++
              (renderNatChars m.natAbs).take
                ((renderNatChars m.natAbs).length - (-e).toNat) ++
              '.' :: (renderNatChars m.natAbs).drop
                ((renderNatChars m.natAbs).length - (-e).toNat) = ([] : List Char) :=
            congrArg String.data hcon
          exact List.cons_ne_nil _ _ (List.append_eq_nil.mp h2).2
        · rw [if_neg hk]
          intro hcon
          have h2 : (if m < 0 then ['-'] else []) ++ '0' :: '.' ::
              (List.replicate ((-e).toNat - (renderNatChars m.natAbs).length) '0' ++
                renderNatChars m.natAbs) = ([] : List Char) :=
            congrArg String.data hcon
          exact List.cons_ne_nil _ _ (List.append_eq_nil.mp h2).2

/-- A Number editor can only be resolved for a property that has a
datatype. -/
theorem number_has_datatype (p : ShaclPropertySpec)
    (h : resolveKind p = EditorKind.number) : ∃ d, p.datatype = some d := by
  cases hdt : p.datatype with
  | some d => exact ⟨d, rfl⟩
  | none =>
    exfalso
    have hsplit : resolveKind p = EditorKind.list ∨
        resolveKind p = resolveAfterList p := by
      unfold resolveKind inputFactoryKind
      by_cases hs : shaclInTruthy p
      · rw [if_pos hs]
        cases hl : materializedList p
        · right; rfl
        · rename_i l
          cases l with
          | nil => right; simp
          | cons x xs => left; simp
      · right; rw [if_neg hs]
    rcases hsplit with h1 | h1
    · rw [h1] at h; simp at h
    · rw [h1] at h
      unfold resolveAfterList resolveSwitch at h
      rw [hdt] at h
      by_cases hls : langStringCase p
      · rw [if_pos hls] at h; simp at h
      · rw [if_neg hls] at h; simp at h

/-- The term built by the Text and List serializers keeps the widget
value as its lexical value. -/
theorem textTermOf_value (p : ShaclPropertySpec) (v : String) :
    (textTermOf p v).value = v := by
  unfold textTermOf
  by_cases h : isIRIBranch p
  · rw [if_pos h]; rfl
  · rw [if_neg h]; rfl

/-- A non-trivial prefix of a non-empty string is non-empty. -/
theorem take_ne_empty (s : String) (k : Nat) (hs : s ≠ "") (hk : k ≠ 0) :
    s.take k ≠ "" := by
  intro hcon
  have h1 : (s.take k).data = ("" : String).data := congrArg String.data hcon
  rw [String.data_take] at h1
  have h2 : s.data.take k = [] := h1
  rcases List.take_eq_nil_iff.mp h2 with h | h
  · exact hk h
  · apply hs
    have h3 : s.data = [] := h
    cases s with
    | mk l =>
      cases h3
      rfl

/-- The Date truncation of a non-empty normalized string is non-empty. -/
theorem dateTrunc_ne_empty (p : ShaclPropertySpec) (s : String) (hs : s ≠ "") :
    dateTrunc p s ≠ "" := by
  unfold dateTrunc
  by_cases h : isDateTime p
  · rw [if_pos h]; exact take_ne_empty s 19 hs (by norm_num)
  · rw [if_neg h]; exact take_ne_empty s 10 hs (by norm_num)

/-- C2: round-trip law: for every editor kind and every RDF term t that
kind can emit, calling setValue(t) on a freshly created editor of that kind
and then toTerm() yields a term observably equivalent to t up to that
kind's declared precision (the Date editor yields exactly the
normalize-and-truncate image of t, whole seconds for dateTime and whole
days otherwise, where `norm` is the host's `new Date(s).toISOString()`);
in particular for LangString, setValue(Literal("x","en")) followed by
toTerm() with no further edits yields a term with language tag "en" and
value "x". -/
theorem c2_round_trip :
    (∀ p t, CanEmitText p t →
      ((mkInputText p).setValue t).toRDFObject = some t) ∧
    (∀ p t, CanEmitLangString p t →
      ((mkInputLangString p).setValue t).toRDFObject = some t) ∧
    (∀ p, p.languageIn = none →
      ((mkInputLangString p).setValue
        (.literal "x" "en" rdfLangString)).toRDFObject =
        some (.literal "x" "en" rdfLangString)) ∧
    (∀ p t, CanEmitBoolean p t →
      ((mkInputBoolean p).setValue t).toRDFObject = some t) ∧
    (∀ p t, resolveKind p = EditorKind.number → CanEmitNumber p t →
      ((mkInputNumber p).setValue t).toRDFObject = some t) ∧
    (∀ (norm : String → String) p t, (∀ s, norm s ≠ "") →
      ((mkInputDate p).setValue norm t).toRDFObject =
        some (literalOfDT (dateTrunc p (norm t.value)) p.datatype)) ∧
    (∀ p entries t, CanEmitList p entries t →
      ((mkInputList p entries).setValue t).toRDFObject = some t) := by
  refine ⟨?_, ?_, ?_, ?_, ?_, ?_, ?_⟩
  · -- Text
    rintro p t ⟨v, hv, rfl⟩
    unfold InputText.setValue InputText.toRDFObject mkInputText
    dsimp only
    rw [textTermOf_value, if_neg hv]
  · -- LangString, general
    rintro p t ⟨v, c, hv, hreach, rfl⟩
    unfold chooserReachable at hreach
    by_cases hc : c = ""
    · subst hc
      unfold literalOfLangOrDT
      rw [if_pos rfl]
      unfold literalOfDT
      by_cases hsel : jsTruthyLen p.languageIn
      · unfold mkInputLangString
        rw [if_pos hsel]
        unfold InputLangString.setValue
        dsimp only
        unfold chooserAssign
        dsimp only
        rw [if_pos rfl]
        unfold InputLangString.toRDFObject
        dsimp only
        rw [if_neg hv]
        unfold literalOfLangOrDT
        rw [ite_self, if_pos rfl]
        rfl
      · unfold mkInputLangString
        rw [if_neg hsel]
        unfold InputLangString.setValue
        dsimp only
        unfold chooserAssign
        dsimp only
        rw [if_neg (by simp)]
        unfold InputLangString.toRDFObject
        dsimp only
        rw [if_neg hv]
        unfold literalOfLangOrDT
        rw [if_pos rfl]
        rfl
    · unfold literalOfLangOrDT
      rw [if_neg hc]
      by_cases hsel : jsTruthyLen p.languageIn
      · rw [if_pos hsel] at hreach
        have hmem : c ∈ p.languageIn.getD [] := by
          rcases hreach with h | h
          · exact absurd h hc
          · exact h
        unfold mkInputLangString
        rw [if_pos hsel]
        unfold InputLangString.setValue
        dsimp only
        unfold chooserAssign
        dsimp only
        rw [if_pos rfl, if_pos hmem]
        unfold InputLangString.toRDFObject
        dsimp only
        rw [if_neg hv]
        unfold literalOfLangOrDT
        rw [if_neg hc]
      · unfold mkInputLangString
        rw [if_neg hsel]
        unfold InputLangString.setValue
        dsimp only
        unfold chooserAssign
        dsimp only
        rw [if_neg (by simp)]
        unfold InputLangString.toRDFObject
        dsimp only
        rw [if_neg hv]
        unfold literalOfLangOrDT
        rw [if_neg hc]
  · -- LangString, particular
    intro p hnone
    unfold mkInputLangString
    rw [if_neg (by simp [jsTruthyLen, hnone])]
    unfold InputLangString.setValue
    dsimp only
    unfold chooserAssign
    dsimp only
    rw [if_neg (by simp [jsTruthyLen, hnone])]
    rfl
  · -- Boolean
    intro p t hemit
    rcases hemit with rfl | ⟨hreq, rfl⟩
    · rfl
    · unfold mkInputBoolean InputBoolean.setValue literalOfDT
      dsimp only
      unfold InputBoolean.toRDFObject
      dsimp only
      rw [show (("false" : String) == "true") = false from rfl]
      rw [hreq]
      rfl
  · -- Number
    intro p t hres hemit
    obtain ⟨v, hv, rfl⟩ := hemit
    obtain ⟨d, hd⟩ := number_has_datatype p hres
    rw [hd]
    unfold n3LiteralOfNumber
    dsimp only
    unfold InputNumber.setValue InputNumber.toRDFObject mkInputNumber
    dsimp only
    rw [show (RDFTerm.literal (renderJS (parseFloatJS v)) "" d).value =
      renderJS (parseFloatJS v) from rfl]
    rw [if_neg (renderJS_ne_empty _), hd]
    unfold n3LiteralOfNumber
    dsimp only
    rw [parse_render_parse v]
  · -- Date
    intro norm p t hne
    unfold InputDate.setValue InputDate.toRDFObject mkInputDate
    dsimp only
    rw [if_neg (dateTrunc_ne_empty p _ (hne t.value))]
  · -- List
    intro p entries t hemit
    obtain ⟨i, h, hne0, rfl⟩ := hemit
    have hmem : (entries.get ⟨i, h⟩).value.value ∈
        (mkInputList p entries).options := by
      unfold mkInputList
      dsimp only
      exact List.mem_cons_of_mem _
        (List.mem_map_of_mem _ (List.get_mem entries i h))
    unfold InputList.setValue InputList.toRDFObject
    dsimp only
    rw [textTermOf_value, if_pos hmem, if_neg hne0]
    rfl

/-- C2 witness: the round trips evaluated on concrete editors: a text
term, a language-tagged literal on a free-text chooser, a boolean, the
number 5, a date and a list selection. -/
theorem c2_round_trip_witness :
    ((mkInputText specW).setValue (textTermOf specW "hello")).toRDFObject =
      some (textTermOf specW "hello") ∧
    ((mkInputLangString specLW).setValue
      (literalOfLangOrDT "x" "en" specLW.datatype)).toRDFObject =
      some (literalOfLangOrDT "x" "en" specLW.datatype) ∧
    ((mkInputLangString specLW).setValue
      (.literal "x" "en" rdfLangString)).toRDFObject =
      some (.literal "x" "en" rdfLangString) ∧
    ((mkInputBoolean specW).setValue (literalOfDT "true" specW.datatype)).toRDFObject =
      some (literalOfDT "true" specW.datatype) ∧
    ((mkInputNumber specNum).setValue
      (n3LiteralOfNumber (parseFloatJS "5") specNum.datatype)).toRDFObject =
      some (n3LiteralOfNumber (parseFloatJS "5") specNum.datatype) ∧
    ((mkInputDate specDate).setValue dateNormW
      (literalOfDT "2024-05-06" specDate.datatype)).toRDFObject =
      some (literalOfDT
        (dateTrunc specDate
          (dateNormW (literalOfDT "2024-05-06" specDate.datatype).value))
        specDate.datatype) ∧
    ((mkInputList specC6 entriesC6).setValue
      (textTermOf specC6 ((entriesC6.get ⟨0, by decide⟩).value.value))).toRDFObject =
      some (textTermOf specC6 ((entriesC6.get ⟨0, by decide⟩).value.value)) :=
  ⟨c2_round_trip.1 specW _ ⟨"hello", by decide, rfl⟩,
   c2_round_trip.2.1 specLW _ ⟨"x", "en", by decide, by trivial, rfl⟩,
   c2_round_trip.2.2.1 specLW rfl,
   c2_round_trip.2.2.2.1 specW _ (Or.inl rfl),
   c2_round_trip.2.2.2.2.1 specNum _ (by decide) ⟨"5", by decide, rfl⟩,
   c2_round_trip.2.2.2.2.2.1 dateNormW specDate _
     (fun _ => (by decide : ("2024-05-06T07:08:09.123Z" : String) ≠ "")),
   c2_round_trip.2.2.2.2.2.2 specC6 entriesC6 _ ⟨0, by decide, by decide, rfl⟩⟩

/-- C9: the Number editor's toTerm is total (never throws, modelled as a
total function) and never returns Absent for a non-empty widget value: it
returns the literal whose lexical form is the string rendering of
parseFloat of the value, typed with the property datatype — so a
non-numeric value yields the literal "NaN" rather than an error or
Absent. -/
theorem c9_number_toTerm_total (e : InputNumber) (d : String)
    (hd : e.property.datatype = some d) (hv : e.value ≠ "") :
    e.toRDFObject = some (.literal (renderJS (parseFloatJS e.value)) "" d) ∧
      (parseFloatJS e.value = JSNum.nan →
        e.toRDFObject = some (.literal "NaN" "" d)) := by
  have h1 : e.toRDFObject =
      some (.literal (renderJS (parseFloatJS e.value)) "" d) := by
    unfold InputNumber.toRDFObject
    rw [if_neg hv, hd]
    rfl
  refine ⟨h1, fun hn => ?_⟩
  rw [h1, hn]
  rfl

/-- C9 witness: the editor state holding the non-numeric value "abc" emits
the NaN literal. -/
theorem c9_number_toTerm_total_witness :
    InputNumber.toRDFObject
        { property := specNum, value := "abc", minAttr := none,
          maxAttr := none, stepAttr := none } =
      some (.literal (renderJS (parseFloatJS "abc")) "" xsdInteger) ∧
      (parseFloatJS "abc" = JSNum.nan →
        InputNumber.toRDFObject
          { property := specNum, value := "abc", minAttr := none,
            maxAttr := none, stepAttr := none } =
          some (.literal "NaN" "" xsdInteger)) :=
  c9_number_toTerm_total _ xsdInteger rfl (by decide)

end ShaclForm

